import Mathlib

/-!
Verification of the DAF (delayed auditory feedback) generator's ring-buffer
engine, shallowly embedded from `dafgen.py`.

Audio chunks are opaque: we index them by natural numbers.  A slot of the
ring holds `Option Chunk`, with `none` standing for Python's `None`
(the "never written" sentinel).  Python integers are embedded as `ℤ`
(with `%` on a positive modulus matching `Int.emod`), wall-clock float
timestamps from `perf_counter` as `ℚ`, and Python list slices
`xs[:i]` / `xs[i:]` / `xs[i:j]` as `List.take` / `List.drop` combinations.
-/

abbrev Chunk := ℕ

/-- State of the `Worker`'s ring: `_ring` (the slot list) and `_pring`
(the cursor).  In the source these are the attributes initialised to
`[]` and `0`. -/
structure RingBuffer where
  ring : List (Option Chunk)
  pring : ℕ
deriving Repr, DecidableEq

/-- `Worker._incPRing`: `self._pring = (self._pring + num) % len(self._ring)`.
`num` is a Python int, so it may be negative; Python `%` with a positive
modulus is `Int.emod`. -/
def incPRing (num : ℤ) (s : RingBuffer) : RingBuffer :=
  { s with pring := (((s.pring : ℤ) + num) % (s.ring.length : ℤ)).toNat }

/-- `Worker._decPRing`: `self._incPRing(-num)`. -/
def decPRing (num : ℤ) (s : RingBuffer) : RingBuffer :=
  incPRing (-num) s

/-- `Worker._resizeRing`.  `sizeDiff = ringSize - len(self._ring)`;
if positive, `self._ring = self._ring[:self._pring] + [None]*sizeDiff + self._ring[self._pring + 1:]`;
if negative, with `sizeDiff` made positive (`amount` here) and
`spaceAfter = len(self._ring) - self._pring`: when `spaceAfter > amount`,
`self._ring = self._ring[:self._pring] + self._ring[self._pring + amount:]`;
otherwise `skipBefore = amount - spaceAfter`,
`self._ring = self._ring[skipBefore:self._pring]` followed by
`self._decPRing(skipBefore)` (which uses the new ring's length).
The two `if` branches of the source test the same `sizeDiff`, so they are
mutually exclusive. -/
def resizeRing (ringSize : ℤ) (s : RingBuffer) : RingBuffer :=
  let sizeDiff : ℤ := ringSize - (s.ring.length : ℤ)
  if 0 < sizeDiff then
    { s with ring := s.ring.take s.pring ++ List.replicate sizeDiff.toNat none
        ++ s.ring.drop (s.pring + 1) }
  else if sizeDiff < 0 then
    let amount : ℕ := (-sizeDiff).toNat
    let spaceAfter : ℕ := s.ring.length - s.pring
    if amount < spaceAfter then
      { s with ring := s.ring.take s.pring ++ s.ring.drop (s.pring + amount) }
    else
      let skipBefore : ℕ := amount - spaceAfter
      decPRing skipBefore { ring := (s.ring.take s.pring).drop skipBefore, pring := s.pring }
  else s

/-- `Worker.__init__`: the class attributes give `_ring = []`, `_pring = 0`,
and the constructor performs the initial `self._resizeRing(ringSize)`. -/
def createRing (ringSize : ℤ) : RingBuffer :=
  resizeRing ringSize ⟨[], 0⟩

/-- Characterization of the shrinking branch of `Worker._resizeRing`:
for `1 ≤ n < length` (cursor in range) the new length is `n`; when the
cursor is below `n` the removed block starts at the cursor's own slot and
the cursor is unchanged; otherwise everything from the cursor on is removed
plus `pring - n` slots from the front, and the cursor wraps to `0`. -/
lemma resizeRing_shrink_char (s : RingBuffer) (n : ℤ) (h1 : 1 ≤ n)
    (h2 : n < (s.ring.length : ℤ)) (hp : s.pring < s.ring.length) :
    ((resizeRing n s).ring.length : ℤ) = n ∧
    ((s.pring : ℤ) < n →
      (resizeRing n s).ring
          = s.ring.take s.pring ++ s.ring.drop (s.pring + (s.ring.length - n.toNat)) ∧
      (resizeRing n s).pring = s.pring) ∧
    (n ≤ (s.pring : ℤ) →
      (resizeRing n s).ring = (s.ring.take s.pring).drop (s.pring - n.toNat) ∧
      (resizeRing n s).pring = 0) := by
  obtain ⟨ring, p⟩ := s
  simp only at hp h2 ⊢
  simp only [resizeRing, decPRing, incPRing]
  have hgrow : ¬ (0 < n - (ring.length : ℤ)) := by omega
  have hshrink : n - (ring.length : ℤ) < 0 := by omega
  rw [if_neg hgrow, if_pos hshrink]
  have hamount : (-(n - (ring.length : ℤ))).toNat = ring.length - n.toNat := by omega
  rw [hamount]
  by_cases hcase : ring.length - n.toNat < ring.length - p
  · rw [if_pos hcase]
    have hlen : (ring.take p ++ ring.drop (p + (ring.length - n.toNat))).length = n.toNat := by
      simp only [List.length_append, List.length_take, List.length_drop]
      omega
    refine ⟨by rw [hlen]; omega, fun _ => ⟨rfl, rfl⟩, fun hle => absurd hcase (by omega)⟩
  · rw [if_neg hcase]
    have hskip : ring.length - n.toNat - (ring.length - p) = p - n.toNat := by omega
    rw [hskip]
    have hlen : ((ring.take p).drop (p - n.toNat)).length = n.toNat := by
      simp only [List.length_drop, List.length_take]
      omega
    have hmod : ((p : ℤ) + -((p - n.toNat : ℕ) : ℤ)) % ((n.toNat : ℕ) : ℤ) = 0 := by
      have hx : ((p : ℤ) + -((p - n.toNat : ℕ) : ℤ)) = ((n.toNat : ℕ) : ℤ) := by omega
      rw [hx]
      exact Int.emod_self
    refine ⟨by rw [hlen]; omega, fun hlt => absurd hcase (by omega), fun _ => ⟨rfl, ?_⟩⟩
    simp only [hlen, hmod, Int.toNat_zero]

/-- C9: for `n ≥ 1`, creation yields `n` slots, cursor `0`, all slots empty. -/
theorem createRing_spec (n : ℤ) (hn : 1 ≤ n) :
    ((createRing n).ring.length : ℤ) = n ∧ (createRing n).pring = 0 ∧
      ∀ c ∈ (createRing n).ring, c = none := by
  have hpos : 0 < n - 0 := by omega
  unfold createRing resizeRing
  simp only [List.length_nil, Nat.cast_zero, List.take_nil, List.drop_nil,
    List.append_nil, List.nil_append, if_pos (show (0:ℤ) < n - 0 from hpos)]
  refine ⟨?_, by trivial, ?_⟩
  · simp only [List.length_replicate]
    omega
  · intro c hc
    exact List.eq_of_mem_replicate hc

/-- Witness for `createRing_spec` at `n = 4`. -/
theorem createRing_spec_witness :
    ((createRing 4).ring.length : ℤ) = 4 ∧ (createRing 4).pring = 0 ∧
      ∀ c ∈ (createRing 4).ring, c = none :=
  createRing_spec 4 (by decide)

/-- C1: evaluating the growth branch at the spec's own scenario
(`create(4)`, chunks A = 0 and B = 1 at slots 0 and 1, cursor at 2,
`resize(6)`).  The splice `_ring[:_pring] + [None]*sizeDiff + _ring[_pring + 1:]`
drops the slot at the cursor, so the result has 5 slots, not the 6 the claim
(and the function's docstring) promise. -/
theorem resizeRing_grow_eval :
    resizeRing 6 ⟨[some 0, some 1, none, none], 2⟩
        = ⟨[some 0, some 1, none, none, none], 2⟩ ∧
    (resizeRing 6 ⟨[some 0, some 1, none, none], 2⟩).ring.length ≠ 6 := by
  constructor
  · rfl
  · decide

/-- C2 counterexample: ring `[10, 11, 12, 13]` with cursor 1, `resize(3)`.
The claim predicts removal of the slot immediately after the cursor
(result `[10, 11, 13]`, chunk 11 kept); the code removes the cursor's own
slot, yielding `[10, 12, 13]` with chunk 11 gone. -/
theorem resizeRing_shrink_counterexample :
    resizeRing 3 ⟨[some 10, some 11, some 12, some 13], 1⟩
        = ⟨[some 10, some 12, some 13], 1⟩ ∧
    (resizeRing 3 ⟨[some 10, some 11, some 12, some 13], 1⟩).ring
        ≠ [some 10, some 11, some 13] ∧
    some 11 ∉ (resizeRing 3 ⟨[some 10, some 11, some 12, some 13], 1⟩).ring := by
  refine ⟨by rfl, by decide, by decide⟩

/-- C2 (amended): shrinking to `1 ≤ n < length` removes `length - n` slots
starting at the cursor's own slot; when the cursor is at or beyond `n`,
everything from the cursor to the end is removed plus `pring - n` slots
from the front, and the cursor (decremented modulo the new length) wraps
to 0; the resulting length is exactly `n`. -/
theorem resizeRing_shrink_spec (s : RingBuffer) (n : ℤ) (h1 : 1 ≤ n)
    (h2 : n < (s.ring.length : ℤ)) (hp : s.pring < s.ring.length) :
    ((resizeRing n s).ring.length : ℤ) = n ∧
    ((s.pring : ℤ) < n →
      (resizeRing n s).ring
          = s.ring.take s.pring ++ s.ring.drop (s.pring + (s.ring.length - n.toNat)) ∧
      (resizeRing n s).pring = s.pring) ∧
    (n ≤ (s.pring : ℤ) →
      (resizeRing n s).ring = (s.ring.take s.pring).drop (s.pring - n.toNat) ∧
      (resizeRing n s).pring = 0) :=
  resizeRing_shrink_char s n h1 h2 hp

/-- Witness for `resizeRing_shrink_spec`: ring `[10, 11, 12, 13]`,
cursor 1, `resize(3)` (the no-spill branch). -/
theorem resizeRing_shrink_spec_witness :
    ((resizeRing 3 ⟨[some 10, some 11, some 12, some 13], 1⟩).ring.length : ℤ) = 3 ∧
    ((1 : ℤ) < 3 →
      (resizeRing 3 ⟨[some 10, some 11, some 12, some 13], 1⟩).ring
          = [some 10, some 11, some 12, some 13].take 1
              ++ [some 10, some 11, some 12, some 13].drop (1 + (4 - (3 : ℤ).toNat)) ∧
      (resizeRing 3 ⟨[some 10, some 11, some 12, some 13], 1⟩).pring = 1) ∧
    ((3 : ℤ) ≤ 1 →
      (resizeRing 3 ⟨[some 10, some 11, some 12, some 13], 1⟩).ring
          = ([some 10, some 11, some 12, some 13].take 1).drop (1 - (3 : ℤ).toNat) ∧
      (resizeRing 3 ⟨[some 10, some 11, some 12, some 13], 1⟩).pring = 0) :=
  resizeRing_shrink_spec ⟨[some 10, some 11, some 12, some 13], 1⟩ 3
    (by decide) (by decide) (by decide)

/-- C10: a shrink to exactly the cursor's position `p ≥ 1` consumes the
slots from the cursor to the end with nothing removed from the front, and
the cursor, momentarily equal to the new length, is wrapped to 0 by the
modulo in the cursor decrement; the surviving slots are the first `p`. -/
theorem resizeRing_shrink_to_cursor (s : RingBuffer) (h1 : 1 ≤ s.pring)
    (h2 : s.pring < s.ring.length) :
    (resizeRing (s.pring : ℤ) s).pring = 0 ∧
    (resizeRing (s.pring : ℤ) s).ring = s.ring.take s.pring ∧
    (resizeRing (s.pring : ℤ) s).ring.length = s.pring := by
  have hchar := resizeRing_shrink_char s (s.pring : ℤ) (by omega) (by omega) h2
  have hle : (s.pring : ℤ) ≤ (s.pring : ℤ) := le_refl _
  obtain ⟨hlen, -, hspill⟩ := hchar
  obtain ⟨hring, hpring⟩ := hspill hle
  have hdrop : s.pring - ((s.pring : ℤ)).toNat = 0 := by omega
  rw [hdrop, List.drop_zero] at hring
  refine ⟨hpring, hring, by omega⟩

/-- Witness for `resizeRing_shrink_to_cursor`: ring `[10, 11, 12, 13]`
with cursor 2, `resize(2)`. -/
theorem resizeRing_shrink_to_cursor_witness :
    (resizeRing ((2 : ℕ) : ℤ) (⟨[some 10, some 11, some 12, some 13], 2⟩ : RingBuffer)).pring = 0 ∧
    (resizeRing ((2 : ℕ) : ℤ) (⟨[some 10, some 11, some 12, some 13], 2⟩ : RingBuffer)).ring
        = [some 10, some 11, some 12, some 13].take 2 ∧
    (resizeRing ((2 : ℕ) : ℤ) (⟨[some 10, some 11, some 12, some 13], 2⟩ : RingBuffer)).ring.length = 2 :=
  resizeRing_shrink_to_cursor ⟨[some 10, some 11, some 12, some 13], 2⟩
    (by decide) (by decide)

/-- Creation from the empty class-attribute state: the growth splice on the
empty list is exactly `List.replicate`. -/
lemma createRing_char (n : ℤ) (hn : 1 ≤ n) :
    createRing n = ⟨List.replicate n.toNat none, 0⟩ := by
  unfold createRing resizeRing
  have hpos : (0:ℤ) < n - ((List.length ([] : List (Option Chunk))) : ℤ) := by
    simp only [List.length_nil, Nat.cast_zero]
    omega
  rw [if_pos hpos]
  simp

/-- The ring invariant the engine relies on: the cursor is a valid index
(which forces `length ≥ 1`). -/
def RingInv (s : RingBuffer) : Prop :=
  s.pring < s.ring.length

/-- `_incPRing` keeps the cursor in range (Python `%` with positive
modulus lands in `[0, length)`). -/
lemma incPRing_inv (k : ℤ) (s : RingBuffer) (h : RingInv s) :
    RingInv (incPRing k s) := by
  unfold RingInv incPRing at *
  simp only
  have hL : (0:ℤ) < (s.ring.length : ℤ) := by
    exact_mod_cast Nat.pos_of_ne_zero (by omega)
  have hnn := Int.emod_nonneg ((s.pring : ℤ) + k) (by omega : (s.ring.length : ℤ) ≠ 0)
  have hlt := Int.emod_lt_of_pos ((s.pring : ℤ) + k) hL
  omega

/-- `_resizeRing` with a requested size `≥ 1` keeps the cursor in range. -/
lemma resizeRing_inv (n : ℤ) (hn : 1 ≤ n) (s : RingBuffer) (h : RingInv s) :
    RingInv (resizeRing n s) := by
  rcases lt_trichotomy n ((s.ring.length : ℕ) : ℤ) with hlt | heq | hgt
  · obtain ⟨hlen, hkeep, hspill⟩ := resizeRing_shrink_char s n hn hlt h
    by_cases hc : (s.pring : ℤ) < n
    · obtain ⟨-, hpr⟩ := hkeep hc
      unfold RingInv
      omega
    · obtain ⟨-, hpr⟩ := hspill (by omega)
      unfold RingInv
      omega
  · have hid : resizeRing n s = s := by
      unfold resizeRing
      rw [if_neg (by omega), if_neg (by omega)]
    rw [hid]
    exact h
  · unfold RingInv resizeRing at *
    rw [if_pos (by omega : (0:ℤ) < n - (s.ring.length : ℤ))]
    simp only [List.length_append, List.length_take, List.length_replicate,
      List.length_drop]
    omega

/-- An operation on the running ring: a resize request (`_resizeRing`) or a
cursor advance (`_incPRing`), as interleaved by the worker loop and the
resize slot. -/
inductive RingOp where
  | resize : ℤ → RingOp
  | advance : ℤ → RingOp
deriving Repr, DecidableEq

def RingOp.apply : RingOp → RingBuffer → RingBuffer
  | RingOp.resize m, s => resizeRing m s
  | RingOp.advance _k, s => incPRing _k s

/-- A resize request is valid when it asks for a size `≥ 1`; cursor
advances are unrestricted. -/
def RingOp.valid : RingOp → Prop
  | RingOp.resize m => 1 ≤ m
  | RingOp.advance _ => True

instance : DecidablePred RingOp.valid := fun op =>
  match op with
  | RingOp.resize m => inferInstanceAs (Decidable (1 ≤ m))
  | RingOp.advance _ => inferInstanceAs (Decidable True)

/-- Running a sequence of operations from a starting ring state. -/
def applyOps (ops : List RingOp) (s : RingBuffer) : RingBuffer :=
  ops.foldl (fun t op => op.apply t) s

lemma applyOps_inv (ops : List RingOp) (s : RingBuffer) (hs : RingInv s)
    (hops : ∀ op ∈ ops, op.valid) : RingInv (applyOps ops s) := by
  induction ops generalizing s with
  | nil => simpa [applyOps] using hs
  | cons op rest ih =>
    have h1 : op.valid := hops op (List.mem_cons_self op rest)
    have h2 : ∀ o ∈ rest, o.valid := fun o ho => hops o (List.mem_cons_of_mem op ho)
    have hstep : RingInv (op.apply s) := by
      cases op with
      | resize m => exact resizeRing_inv m h1 s hs
      | advance k => exact incPRing_inv k s hs
    simpa [applyOps] using ih (op.apply s) hstep h2

/-- C3: after creation with size `≥ 1` and any sequence of valid resizes
(size `≥ 1`) interleaved with arbitrary cursor advances, the ring's length
stays `≥ 1` and the cursor stays a valid index. -/
theorem ring_ops_invariant (n : ℤ) (ops : List RingOp) (hn : 1 ≤ n)
    (hops : ∀ op ∈ ops, op.valid) :
    1 ≤ (applyOps ops (createRing n)).ring.length ∧
    (applyOps ops (createRing n)).pring < (applyOps ops (createRing n)).ring.length := by
  have hbase : RingInv (createRing n) := by
    rw [createRing_char n hn]
    unfold RingInv
    simp only [List.length_replicate]
    omega
  have hfin := applyOps_inv ops (createRing n) hbase hops
  unfold RingInv at hfin
  exact ⟨by omega, hfin⟩

/-- Witness for `ring_ops_invariant`: create a 4-slot ring, grow to 6,
advance the cursor by 3, shrink to 2. -/
theorem ring_ops_invariant_witness :
    1 ≤ (applyOps [RingOp.resize 6, RingOp.advance 3, RingOp.resize 2]
          (createRing 4)).ring.length ∧
    (applyOps [RingOp.resize 6, RingOp.advance 3, RingOp.resize 2]
          (createRing 4)).pring
        < (applyOps [RingOp.resize 6, RingOp.advance 3, RingOp.resize 2]
          (createRing 4)).ring.length :=
  ring_ops_invariant 4 [RingOp.resize 6, RingOp.advance 3, RingOp.resize 2]
    (by decide) (by decide)

/-- Timed state of the `Worker` as seen by `ringSizeChanged`: the ring
plus `_rscBuffer`, the `perf_counter` timestamp of the last applied
resize (class attribute `0.0` before any resize is applied). -/
structure WorkerState where
  rb : RingBuffer
  rscBuffer : ℚ
deriving DecidableEq

/-- `Worker.ringSizeChanged`, with the `perf_counter()` reading `ts`
passed explicitly: `if self._rscBuffer > ts - 0.01: return`; otherwise
`self._resizeRing(ringSize)` and `self._rscBuffer = ts`. -/
def ringSizeChanged (ts : ℚ) (ringSize : ℤ) (w : WorkerState) : WorkerState :=
  if w.rscBuffer > ts - 1/100 then w
  else { rb := resizeRing ringSize w.rb, rscBuffer := ts }

/-- C4: a resize request is applied exactly when it arrives at least
10 ms (`1/100` s) after the timestamp of the last applied resize; a
request arriving sooner leaves the whole worker state (ring contents,
cursor, and throttle timestamp) unchanged. -/
theorem ringSizeChanged_rate_limit (ts : ℚ) (n : ℤ) (w : WorkerState) :
    (1/100 ≤ ts - w.rscBuffer →
      ringSizeChanged ts n w = { rb := resizeRing n w.rb, rscBuffer := ts }) ∧
    (ts - w.rscBuffer < 1/100 → ringSizeChanged ts n w = w) := by
  constructor
  · intro h
    unfold ringSizeChanged
    rw [if_neg (by linarith)]
  · intro h
    unfold ringSizeChanged
    rw [if_pos (by linarith)]

/-- Witness for `ringSizeChanged_rate_limit`: at `ts = 1` with last resize
at `0`, a request for size 2 on a fresh 4-slot ring is applied; at
`ts = 1/200` it is dropped. -/
theorem ringSizeChanged_rate_limit_witness :
    ringSizeChanged 1 2 ⟨createRing 4, 0⟩
        = { rb := resizeRing 2 (createRing 4), rscBuffer := 1 } ∧
    ringSizeChanged (1/200) 2 ⟨createRing 4, 0⟩ = ⟨createRing 4, 0⟩ :=
  ⟨(ringSizeChanged_rate_limit 1 2 ⟨createRing 4, 0⟩).1 (by norm_num),
   (ringSizeChanged_rate_limit (1/200) 2 ⟨createRing 4, 0⟩).2 (by norm_num)⟩

/-- C7: evaluating the missing guard.  `ringSizeChanged` contains no size
validation, only the throttle, so a request for size `0` arriving after
the 10 ms window (here `ts = 1`, last resize at `0`) reaches
`_resizeRing(0)`, which executes and empties the ring: the resulting
length is `0`, breaking the `length ≥ 1` invariant (the Python code then
raises `ZeroDivisionError` in `_decPRing`, modelled by `% 0`). -/
theorem ringSizeChanged_nonpositive_eval :
    ringSizeChanged 1 0 ⟨⟨[none, none, none, none], 0⟩, 0⟩
        = ⟨⟨[], 0⟩, 1⟩ ∧
    (ringSizeChanged 1 0 ⟨⟨[none, none, none, none], 0⟩, 0⟩).rb.ring.length = 0 := by
  have hcond : ¬ ((⟨⟨[none, none, none, none], 0⟩, 0⟩ : WorkerState).rscBuffer
      > 1 - 1/100) := by norm_num
  constructor
  · unfold ringSizeChanged
    rw [if_neg hcond]
    rfl
  · unfold ringSizeChanged
    rw [if_neg hcond]
    rfl

/-- `MainApp._BUFFERSPERSECOND = _RATE / _BUFFERSIZE` with
`_RATE = 44100` and `_BUFFERSIZE = 100`. -/
def BUFFERSPERSECOND : ℚ := 44100 / 100

/-- Python 3 `round` to an integer: nearest integer, ties to even. -/
def roundHalfEven (q : ℚ) : ℤ :=
  if q - ⌊q⌋ < 1/2 then ⌊q⌋
  else if 1/2 < q - ⌊q⌋ then ⌊q⌋ + 1
  else if ⌊q⌋ % 2 = 0 then ⌊q⌋ else ⌊q⌋ + 1

/-- `MainApp._calcRingSize`: `floor(round(ms / 1000 * self._BUFFERSPERSECOND))`.
`round` already yields an integer, so the outer `floor` is the identity. -/
def calcRingSize (ms : ℤ) : ℤ :=
  ⌊((roundHalfEven ((ms : ℚ) / 1000 * BUFFERSPERSECOND) : ℤ) : ℚ)⌋

/-- C5 counterexample: at `ms = 90` the code rounds `39.69` up to `40`,
while the claimed formula `floor(ms / 1000 × 441)` gives `39`. -/
theorem calcRingSize_counterexample :
    calcRingSize 90 = 40 ∧ ⌊(90 : ℚ) / 1000 * BUFFERSPERSECOND⌋ = 39 ∧
      calcRingSize 90 ≠ ⌊(90 : ℚ) / 1000 * BUFFERSPERSECOND⌋ := by
  refine ⟨?_, ?_, ?_⟩ <;> norm_num [calcRingSize, roundHalfEven, BUFFERSPERSECOND,
    Int.floor_eq_iff, Int.floor_intCast]

lemma roundHalfEven_close (q : ℚ) : |(roundHalfEven q : ℚ) - q| ≤ 1/2 := by
  have h1 : (⌊q⌋ : ℚ) ≤ q := Int.floor_le q
  have h2 : q < ⌊q⌋ + 1 := Int.lt_floor_add_one q
  unfold roundHalfEven
  split_ifs with ha hb hc <;> rw [abs_le] <;> push_cast <;> constructor <;> linarith

/-- C5 (amended): the initial ring size is the nearest integer to
`ms / 1000 × (sampleRate / framesPerChunk)` with ties to even (Python
`round`), not its floor; the spec's own scenario `ms = 100` still yields
`44`. -/
theorem calcRingSize_round_spec :
    (∀ ms : ℤ, |(calcRingSize ms : ℚ) - (ms : ℚ) / 1000 * BUFFERSPERSECOND| ≤ 1/2) ∧
    calcRingSize 100 = 44 := by
  constructor
  · intro ms
    have h := roundHalfEven_close ((ms : ℚ) / 1000 * BUFFERSPERSECOND)
    simpa [calcRingSize, Int.floor_intCast] using h
  · norm_num [calcRingSize, roundHalfEven, BUFFERSPERSECOND, Int.floor_eq_iff]

/-- `_incPRing(1)` in `ℕ` terms: with the ring unchanged, the cursor
becomes `(pring + 1) % length`. -/
lemma incPRing_one (s : RingBuffer) :
    incPRing 1 s = ⟨s.ring, (s.pring + 1) % s.ring.length⟩ := by
  unfold incPRing
  rw [show ((s.pring : ℤ) + 1) = ((s.pring + 1 : ℕ) : ℤ) by push_cast; ring,
    ← Int.ofNat_emod, Int.toNat_natCast]

/-- State of one `_genDAF` loop: the shared ring plus the local `start`
performance variable (`0` plays the role of Python's falsy `0`, meaning
no timing measurement is in progress). -/
structure LoopState where
  rb : RingBuffer
  start : ℚ
deriving DecidableEq

/-- One iteration of the `while self._streamIn.is_active()` body of
`Worker._genDAF`, with the two `perf_counter()` readings `t0` (taken when
recording `start`) and `t1` (taken when computing `actualDelay`) and the
chunk `captured` returned by `self._streamIn.read(self._bufferSize)`
passed explicitly.  Returns the new state, the chunk written to
`_streamOut` (if the cursor's slot was non-empty), and the `actualDelay`
emitted through `_trigger` (if the measurement completed). -/
def genDAFStep (t0 t1 : ℚ) (captured : Chunk) (s : LoopState) :
    LoopState × Option Chunk × Option ℚ :=
  let start1 := if s.start = 0 ∧ s.rb.pring = 0 then t0 else s.start
  let played := s.rb.ring.getD s.rb.pring none
  let rb1 : RingBuffer := ⟨s.rb.ring.set s.rb.pring (some captured), s.rb.pring⟩
  let rb2 := incPRing 1 rb1
  if start1 ≠ 0 ∧ rb2.pring = 0 then
    (⟨rb2, 0⟩, played, some (t1 - start1))
  else
    (⟨rb2, start1⟩, played, none)

/-- C6: in each loop iteration, the slot at the cursor is handed to the
playback sink exactly when non-empty, the captured chunk then overwrites
that slot, the cursor advances by one modulo the current length; a start
timestamp is recorded when the cursor is 0 with no measurement in
progress, and when the cursor wraps back to 0 with a measurement in
progress the elapsed time since the recorded start is emitted exactly
once and the flag is cleared. -/
theorem genDAF_step_spec (t0 t1 : ℚ) (c : Chunk) (s : LoopState)
    (hp : s.rb.pring < s.rb.ring.length) (ht : 0 < t0) :
    (genDAFStep t0 t1 c s).2.1 = s.rb.ring.getD s.rb.pring none ∧
    (genDAFStep t0 t1 c s).1.rb.ring = s.rb.ring.set s.rb.pring (some c) ∧
    (genDAFStep t0 t1 c s).1.rb.pring = (s.rb.pring + 1) % s.rb.ring.length ∧
    (s.start = 0 ∧ s.rb.pring = 0 ∧ (s.rb.pring + 1) % s.rb.ring.length ≠ 0 →
      (genDAFStep t0 t1 c s).1.start = t0 ∧ (genDAFStep t0 t1 c s).2.2 = none) ∧
    (s.start = 0 ∧ s.rb.pring = 0 ∧ (s.rb.pring + 1) % s.rb.ring.length = 0 →
      (genDAFStep t0 t1 c s).1.start = 0 ∧
        (genDAFStep t0 t1 c s).2.2 = some (t1 - t0)) ∧
    (s.start ≠ 0 ∧ (s.rb.pring + 1) % s.rb.ring.length = 0 →
      (genDAFStep t0 t1 c s).1.start = 0 ∧
        (genDAFStep t0 t1 c s).2.2 = some (t1 - s.start)) ∧
    (s.start ≠ 0 ∧ (s.rb.pring + 1) % s.rb.ring.length ≠ 0 →
      (genDAFStep t0 t1 c s).1.start = s.start ∧
        (genDAFStep t0 t1 c s).2.2 = none) ∧
    (s.start = 0 ∧ s.rb.pring ≠ 0 →
      (genDAFStep t0 t1 c s).1.start = 0 ∧ (genDAFStep t0 t1 c s).2.2 = none) := by
  obtain ⟨⟨ring, p⟩, st⟩ := s
  simp only at hp ⊢
  have hne : t0 ≠ 0 := ne_of_gt ht
  simp only [genDAFStep, incPRing_one, List.length_set]
  split_ifs with h1 h2 h3 <;>
    refine ⟨rfl, rfl, rfl, ?_, ?_, ?_, ?_, ?_⟩ <;> intro hA <;> simp_all <;>
    first
      | omega
      | (obtain ⟨-, hp0, hw⟩ := hA
         subst hp0
         rw [Nat.mod_eq_of_lt (by omega)] at hw
         omega)

/-- Witness for `genDAF_step_spec`: a two-slot ring holding chunk 5 at the
cursor (slot 0), capturing chunk 7 at time 1. -/
theorem genDAF_step_spec_witness :
    (genDAFStep 1 2 7 ⟨⟨[some 5, none], 0⟩, 0⟩).2.1 = [some 5, none].getD 0 none ∧
    (genDAFStep 1 2 7 ⟨⟨[some 5, none], 0⟩, 0⟩).1.rb.ring
        = [some 5, none].set 0 (some 7) ∧
    (genDAFStep 1 2 7 ⟨⟨[some 5, none], 0⟩, 0⟩).1.rb.pring = (0 + 1) % 2 :=
  have h := genDAF_step_spec 1 2 7 ⟨⟨[some 5, none], 0⟩, 0⟩ (by decide) (by norm_num)
  ⟨h.1, h.2.1, h.2.2.1⟩

/-- How code can shut down the worker loop's execution unit. -/
inductive StopMechanism where
  | cooperativeFlag
  | streamClosure
  | forceTerminate
deriving Repr, DecidableEq

/-- `MainApp._stopCapture` shuts the worker down with
`self._workerThread.terminate()` — Qt's forced thread kill.  It sets no
activity flag and closes neither stream. -/
def stopCaptureMechanism : StopMechanism := StopMechanism.forceTerminate

/-- C8: evaluating the stop path.  The shutdown mechanism used by
`_stopCapture` is the forced termination of the thread, not a checked
activity flag and not closure of the capture stream — contradicting the
claim that the loop is never force-terminated. -/
theorem stopCapture_force_terminates :
    stopCaptureMechanism = StopMechanism.forceTerminate ∧
    stopCaptureMechanism ≠ StopMechanism.cooperativeFlag ∧
    stopCaptureMechanism ≠ StopMechanism.streamClosure := by
  refine ⟨rfl, by decide, by decide⟩
